import Mathlib

/-!
# Verification of the realtime chat engine (Convex modules)

Shallow embedding of the Convex backend modules
(`convex/conversations.ts`, `convex/messages.ts`, `convex/users.ts`
reactions section, `convex/typing.ts`) of the chat application.

Modelling conventions:
* Each Convex table is a `List` of records kept in insertion order; document
  `_id`s are drawn from a single counter `nextId` (each `ctx.db.insert`
  allocates the current counter value and bumps it).
* `Date.now()` is modelled by an explicit `now : Int` argument to every
  mutation that reads the clock.
* A mutation returns `Except String (α × DB)`; `throw new Error(e)` is
  `.error e` (Convex rolls the transaction back, so an error carries no
  state). Queries are plain functions of the state.
* An indexed `.collect()` returns the matching documents; for computations
  whose result does not depend on the index ordering (counts, filters) we use
  the filtered list in insertion order, which is the same multiset.
  `.order("desc").first()` on the `by_conversation_createdAt` index is the
  message with maximal `createdAt`, ties going to the latest-inserted
  document; `.unique()` is `uniqueQ` below (errors on more than one match).
-/

/-- A row of the `users` table. -/
structure ChatUser where
  id : Nat
  clerkId : String
  name : String
  email : String
  avatarUrl : String
  isOnline : Bool
  lastSeen : Int
  deriving Repr, DecidableEq

/-- A row of the `conversations` table. -/
structure Conversation where
  id : Nat
  isGroup : Bool
  name : Option String
  createdAt : Int
  deriving Repr, DecidableEq

/-- A row of the `conversationMembers` table. -/
structure ChatMembership where
  id : Nat
  conversationId : Nat
  userId : Nat
  lastReadAt : Int
  deriving Repr, DecidableEq

/-- A row of the `messages` table. -/
structure Message where
  id : Nat
  conversationId : Nat
  senderId : Nat
  body : String
  createdAt : Int
  isDeleted : Bool
  deriving Repr, DecidableEq

/-- A row of the `reactions` table. -/
structure Reaction where
  id : Nat
  messageId : Nat
  userId : Nat
  emoji : String
  deriving Repr, DecidableEq

/-- A row of the `typingIndicators` table. -/
structure TypingIndicator where
  id : Nat
  conversationId : Nat
  userId : Nat
  updatedAt : Int
  deriving Repr, DecidableEq

/-- The whole Convex database, tables in insertion order, plus the id
counter from which `ctx.db.insert` allocates fresh `_id`s. -/
structure DB where
  users : List ChatUser
  conversations : List Conversation
  conversationMembers : List ChatMembership
  messages : List Message
  reactions : List Reaction
  typingIndicators : List TypingIndicator
  nextId : Nat
  deriving Repr, DecidableEq

/-- Convex `.unique()`: none, one, or an error when several rows match. -/
def uniqueQ {α : Type} : List α → Except String (Option α)
  | [] => .ok none
  | [x] => .ok (some x)
  | _ :: _ :: _ => .error "unique() query returned more than one document"

/-- `ctx.db.get` on the `conversations` table. -/
def getConversation (s : DB) (cid : Nat) : Option Conversation :=
  s.conversations.find? (fun c => c.id == cid)

/-- `ctx.db.get` on the `users` table. -/
def getUser (s : DB) (uid : Nat) : Option ChatUser :=
  s.users.find? (fun u => u.id == uid)

/-- `ctx.db.get` on the `messages` table. -/
def getMessage (s : DB) (mid : Nat) : Option Message :=
  s.messages.find? (fun m => m.id == mid)

/-- Index `conversationMembers.by_userId` (`.collect()`). -/
def membershipsOfUser (s : DB) (uid : Nat) : List ChatMembership :=
  s.conversationMembers.filter (fun m => m.userId == uid)

/-- Index `conversationMembers.by_conversationId` (`.collect()`). -/
def membershipsOfConversation (s : DB) (cid : Nat) : List ChatMembership :=
  s.conversationMembers.filter (fun m => m.conversationId == cid)

/-- Index `conversationMembers.by_user_conversation`. -/
def membershipsOfUserConversation (s : DB) (uid cid : Nat) : List ChatMembership :=
  s.conversationMembers.filter (fun m => m.userId == uid && m.conversationId == cid)

/-- Index `messages.by_conversation_createdAt` (`.collect()`; the index
ordering does not affect the filters/counts computed from it). -/
def messagesOfConversation (s : DB) (cid : Nat) : List Message :=
  s.messages.filter (fun m => m.conversationId == cid)

/-- Index `reactions.by_message_user` (`.collect()`). -/
def reactionsOfMessageUser (s : DB) (mid uid : Nat) : List Reaction :=
  s.reactions.filter (fun r => r.messageId == mid && r.userId == uid)

/-- Index `reactions.by_messageId` (`.collect()`). -/
def reactionsOfMessage (s : DB) (mid : Nat) : List Reaction :=
  s.reactions.filter (fun r => r.messageId == mid)

/-- Index `typingIndicators.by_user_conversation`. -/
def typingOfUserConversation (s : DB) (uid cid : Nat) : List TypingIndicator :=
  s.typingIndicators.filter (fun t => t.userId == uid && t.conversationId == cid)

/-- Index `typingIndicators.by_conversationId` (`.collect()`). -/
def typingOfConversation (s : DB) (cid : Nat) : List TypingIndicator :=
  s.typingIndicators.filter (fun t => t.conversationId == cid)

/-- `.order("desc").first()` over `by_conversation_createdAt`: the document
with maximal `createdAt`; on ties the latest-inserted document wins (the
index also orders by `_creationTime`). -/
def firstDesc : List Message → Option Message :=
  List.foldl
    (fun acc m =>
      match acc with
      | none => some m
      | some b => if b.createdAt ≤ m.createdAt then some m else some b)
    none

/-! ## conversations.ts -/

/-- The membership-scan loop of `getOrCreateDirectConversation`
(conversations.ts:35-51): for each membership of the current user, skip
missing or group conversations, then look up the other user's membership on
the same conversation with `.unique()`; the first hit returns that
conversation's id. -/
def findDirectLoop (s : DB) (otherUserId : Nat) :
    List ChatMembership → Except String (Option Nat)
  | [] => .ok none
  | m :: rest =>
    match getConversation s m.conversationId with
    | none => findDirectLoop s otherUserId rest
    | some conversation =>
      if conversation.isGroup then findDirectLoop s otherUserId rest
      else
        match uniqueQ (membershipsOfUserConversation s otherUserId m.conversationId) with
        | .error e => .error e
        | .ok none => findDirectLoop s otherUserId rest
        | .ok (some _) => .ok (some m.conversationId)

/-- `getOrCreateDirectConversation` (conversations.ts:22-76). -/
def getOrCreateDirectConversation (s : DB) (now : Int)
    (currentUserId otherUserId : Nat) : Except String (Nat × DB) :=
  match findDirectLoop s otherUserId (membershipsOfUser s currentUserId) with
  | .error e => .error e
  | .ok (some cid) => .ok (cid, s)
  | .ok none =>
    let conversationId := s.nextId
    let conv : Conversation :=
      { id := conversationId, isGroup := false, name := none, createdAt := now }
    let m1 : ChatMembership :=
      { id := s.nextId + 1, conversationId := conversationId,
        userId := currentUserId, lastReadAt := now }
    let m2 : ChatMembership :=
      { id := s.nextId + 2, conversationId := conversationId,
        userId := otherUserId, lastReadAt := now }
    .ok (conversationId,
      { s with
        conversations := s.conversations ++ [conv],
        conversationMembers := s.conversationMembers ++ [m1, m2],
        nextId := s.nextId + 3 })

/-- `createGroupConversation` (conversations.ts:85-118): insert the group
conversation, a membership for the creator, then one membership per entry of
`memberIds` (no deduplication in the source). -/
def createGroupConversation (s : DB) (now : Int) (name : String)
    (memberIds : List Nat) (creatorId : Nat) : Except String (Nat × DB) :=
  let conversationId := s.nextId
  let conv : Conversation :=
    { id := conversationId, isGroup := true, name := some name, createdAt := now }
  let creatorMembership : ChatMembership :=
    { id := s.nextId + 1, conversationId := conversationId,
      userId := creatorId, lastReadAt := now }
  let memberships :=
    (memberIds.enum).map (fun p =>
      ({ id := s.nextId + 2 + p.1, conversationId := conversationId,
         userId := p.2, lastReadAt := now } : ChatMembership))
  .ok (conversationId,
    { s with
      conversations := s.conversations ++ [conv],
      conversationMembers := s.conversationMembers ++ creatorMembership :: memberships,
      nextId := s.nextId + 2 + memberIds.length })

/-- One element of the list returned by `getUserConversations`. -/
structure ConvEntry where
  conversation : Conversation
  members : List ChatUser
  latestMessage : Option Message
  latestMessageSender : Option ChatUser
  unreadCount : Nat
  memberCount : Nat
  deriving Repr, DecidableEq

/-- The per-membership loop of `getUserConversations`
(conversations.ts:137-189): skip missing conversations, resolve members,
latest message (for the sidebar preview, no `isDeleted` filter in the
source), unread count, and the latest message's sender. -/
def buildEntries (s : DB) (userId : Nat) : List ChatMembership → List ConvEntry
  | [] => []
  | m :: rest =>
    match getConversation s m.conversationId with
    | none => buildEntries s userId rest
    | some conversation =>
      let allMembers := membershipsOfConversation s conversation.id
      let memberUsers := (allMembers.map (fun mm => getUser s mm.userId)).filterMap id
      let latestMessage := firstDesc (messagesOfConversation s conversation.id)
      let unreadMessages := messagesOfConversation s conversation.id
      let unreadCount :=
        (unreadMessages.filter (fun msg =>
          decide (m.lastReadAt < msg.createdAt) && msg.senderId != userId)).length
      let latestMessageSender :=
        match latestMessage with
        | some lm => getUser s lm.senderId
        | none => none
      { conversation := conversation, members := memberUsers,
        latestMessage := latestMessage, latestMessageSender := latestMessageSender,
        unreadCount := unreadCount, memberCount := allMembers.length }
        :: buildEntries s userId rest

/-- Sort key of the final `conversations.sort` (conversations.ts:192-196):
latest message `createdAt`, else the conversation's `createdAt`. -/
def entrySortKey (e : ConvEntry) : Int :=
  match e.latestMessage with
  | some lm => lm.createdAt
  | none => e.conversation.createdAt

/-- `getUserConversations` (conversations.ts:126-200): build the enriched
entries from the user's memberships, then sort newest-first by
`entrySortKey` (the JS comparator `bTime - aTime`, modelled as a stable sort
producing a permutation in descending key order). -/
def getUserConversations (s : DB) (userId : Nat) : List ConvEntry :=
  List.insertionSort (fun a b => entrySortKey b ≤ entrySortKey a)
    (buildEntries s userId (membershipsOfUser s userId))

/-- `markAsRead` (conversations.ts:208-229): look up the membership with
`.unique()`; patch `lastReadAt` when present, silently no-op otherwise. -/
def markAsRead (s : DB) (now : Int) (userId conversationId : Nat) :
    Except String (Unit × DB) :=
  match uniqueQ (membershipsOfUserConversation s userId conversationId) with
  | .error e => .error e
  | .ok none => .ok ((), s)
  | .ok (some membership) =>
    .ok ((),
      { s with
        conversationMembers := s.conversationMembers.map (fun m =>
          if m.id == membership.id then { m with lastReadAt := now } else m) })

/-! ## messages.ts -/

/-- `sendMessage` (messages.ts:20-51): insert the message (no validation of
`body` in the source), then delete the sender's typing indicator for the
conversation when one exists. -/
def sendMessage (s : DB) (now : Int) (conversationId senderId : Nat)
    (body : String) : Except String (Nat × DB) :=
  let messageId := s.nextId
  let msg : Message :=
    { id := messageId, conversationId := conversationId, senderId := senderId,
      body := body, createdAt := now, isDeleted := false }
  let s1 : DB := { s with messages := s.messages ++ [msg], nextId := s.nextId + 1 }
  match uniqueQ (typingOfUserConversation s1 senderId conversationId) with
  | .error e => .error e
  | .ok none => .ok (messageId, s1)
  | .ok (some ti) =>
    .ok (messageId,
      { s1 with typingIndicators := s1.typingIndicators.filter (fun t => t.id != ti.id) })

/-- `deleteMessage` (messages.ts:110-128): missing message or non-sender
errors; otherwise patch `isDeleted := true`. -/
def deleteMessage (s : DB) (messageId userId : Nat) : Except String (Unit × DB) :=
  match getMessage s messageId with
  | none => .error "Message not found"
  | some message =>
    if message.senderId != userId then
      .error "You can only delete your own messages"
    else
      .ok ((),
        { s with
          messages := s.messages.map (fun m =>
            if m.id == messageId then { m with isDeleted := true } else m) })

/-! ## users.ts (reactions section) -/

/-- `ALLOWED_EMOJIS` (users.ts). -/
def ALLOWED_EMOJIS : List String := ["👍", "❤️", "😂", "😮", "😢"]

/-- `toggleReaction` (users.ts:160-202): reject emojis outside
`ALLOWED_EMOJIS`; delete the same-emoji reaction when present; otherwise
delete every existing reaction of the user on the message and insert the new
one. -/
def toggleReaction (s : DB) (messageId userId : Nat) (emoji : String) :
    Except String (Unit × DB) :=
  if !(ALLOWED_EMOJIS.contains emoji) then
    .error ("Invalid emoji. Allowed: " ++ String.intercalate ", " ALLOWED_EMOJIS)
  else
    let existingReactions := reactionsOfMessageUser s messageId userId
    match existingReactions.find? (fun r => r.emoji == emoji) with
    | some sameReaction =>
      .ok ((),
        { s with reactions := s.reactions.filter (fun r => r.id != sameReaction.id) })
    | none =>
      let deletedIds := existingReactions.map (fun r => r.id)
      let newReaction : Reaction :=
        { id := s.nextId, messageId := messageId, userId := userId, emoji := emoji }
      .ok ((),
        { s with
          reactions :=
            (s.reactions.filter (fun r => !(deletedIds.contains r.id))) ++ [newReaction],
          nextId := s.nextId + 1 })

/-! ## typing.ts -/

/-- `TYPING_EXPIRY_MS` (typing.ts:14). -/
def TYPING_EXPIRY_MS : Int := 2000

/-- `setTyping` (typing.ts:22-51): refresh `updatedAt` on the existing
indicator, or insert a new one. -/
def setTyping (s : DB) (now : Int) (conversationId userId : Nat) :
    Except String (Unit × DB) :=
  match uniqueQ (typingOfUserConversation s userId conversationId) with
  | .error e => .error e
  | .ok (some existing) =>
    .ok ((),
      { s with
        typingIndicators := s.typingIndicators.map (fun t =>
          if t.id == existing.id then { t with updatedAt := now } else t) })
  | .ok none =>
    .ok ((),
      { s with
        typingIndicators := s.typingIndicators ++
          [{ id := s.nextId, conversationId := conversationId,
             userId := userId, updatedAt := now }],
        nextId := s.nextId + 1 })

/-- `clearTyping` (typing.ts:58-77). -/
def clearTyping (s : DB) (conversationId userId : Nat) : Except String (Unit × DB) :=
  match uniqueQ (typingOfUserConversation s userId conversationId) with
  | .error e => .error e
  | .ok none => .ok ((), s)
  | .ok (some existing) =>
    .ok ((),
      { s with typingIndicators := s.typingIndicators.filter (fun t => t.id != existing.id) })

/-- The `activeIndicators` filter of `getTypingUsers` (typing.ts:100-105):
indicators of the conversation from users other than the caller whose
`updatedAt` is within `TYPING_EXPIRY_MS` of `now`. -/
def activeTypingIndicators (s : DB) (now : Int) (conversationId currentUserId : Nat) :
    List TypingIndicator :=
  (typingOfConversation s conversationId).filter (fun indicator =>
    indicator.userId != currentUserId &&
    decide (now - indicator.updatedAt < TYPING_EXPIRY_MS))

/-- `getTypingUsers` (typing.ts:87-117): resolve each active indicator to
the user's name, defaulting to "Someone". -/
def getTypingUsers (s : DB) (now : Int) (conversationId currentUserId : Nat) :
    List String :=
  (activeTypingIndicators s now conversationId currentUserId).map (fun indicator =>
    match getUser s indicator.userId with
    | some user => user.name
    | none => "Someone")

/-! ## Shared concrete states for witnesses and counterexamples -/

/-- The empty database. -/
def emptyDB : DB :=
  { users := [], conversations := [], conversationMembers := [],
    messages := [], reactions := [], typingIndicators := [], nextId := 0 }

/-! ## C2: body validation in `sendMessage` -/

/-- C2 (counterexample): `sendMessage` called with a whitespace-only body
does not fail; it returns ok and a Message with that body is inserted, so
the mutation silently stores blank bodies rather than rejecting them. -/
theorem sendMessage_accepts_blank_body_cx :
    ∃ s' : DB, sendMessage emptyDB 5 100 1 " " = Except.ok (0, s') ∧
      ({ id := 0, conversationId := 100, senderId := 1, body := " ",
         createdAt := 5, isDeleted := false } : Message) ∈ s'.messages :=
  ⟨_, rfl, by decide⟩

/-- C2 (amended): for every body — empty or whitespace-only included —
`sendMessage` succeeds (provided the sender's typing-indicator rows for the
conversation are unique, else the `.unique()` call throws) and appends
exactly one Message carrying exactly that body; no validation error is ever
raised for the body. -/
theorem sendMessage_stores_any_body (s : DB) (now : Int)
    (conversationId senderId : Nat) (body : String)
    (h : (typingOfUserConversation s senderId conversationId).length ≤ 1) :
    ∃ s' : DB, sendMessage s now conversationId senderId body =
        Except.ok (s.nextId, s') ∧
      s'.messages = s.messages ++
        [{ id := s.nextId, conversationId := conversationId, senderId := senderId,
           body := body, createdAt := now, isDeleted := false }] := by
  have hstep : sendMessage s now conversationId senderId body =
      match uniqueQ (typingOfUserConversation s senderId conversationId) with
      | .error e => .error e
      | .ok none =>
        .ok (s.nextId,
          { s with
            messages := s.messages ++
              [{ id := s.nextId, conversationId := conversationId,
                 senderId := senderId, body := body, createdAt := now,
                 isDeleted := false }],
            nextId := s.nextId + 1 })
      | .ok (some ti) =>
        .ok (s.nextId,
          { s with
            messages := s.messages ++
              [{ id := s.nextId, conversationId := conversationId,
                 senderId := senderId, body := body, createdAt := now,
                 isDeleted := false }],
            typingIndicators := s.typingIndicators.filter (fun t => t.id != ti.id),
            nextId := s.nextId + 1 }) := rfl
  rcases hl : typingOfUserConversation s senderId conversationId with _ | ⟨t, _ | ⟨t2, rest⟩⟩
  · rw [hl] at hstep
    exact ⟨_, hstep, rfl⟩
  · rw [hl] at hstep
    exact ⟨_, hstep, rfl⟩
  · rw [hl] at h
    simp at h

/-- C2 witness: the amended theorem applied at the empty database with an
empty body. -/
theorem sendMessage_stores_any_body_witness :
    (typingOfUserConversation emptyDB 1 100).length ≤ 1 ∧
    ∃ s' : DB, sendMessage emptyDB 5 100 1 "" = Except.ok (0, s') ∧
      s'.messages = [{ id := 0, conversationId := 100, senderId := 1,
                       body := "", createdAt := 5, isDeleted := false }] :=
  ⟨by decide, by simpa using sendMessage_stores_any_body emptyDB 5 100 1 "" (by decide)⟩

/-! ## C8: `markAsRead` with a missing membership -/

/-- C8 (counterexample): `markAsRead` on a state holding no Membership for
the pair completes with ok and leaves the state unchanged — it does not fail
with an error as the claim requires. -/
theorem markAsRead_missing_membership_noop_cx :
    markAsRead emptyDB 9 1 100 = Except.ok ((), emptyDB) ∧
      membershipsOfUserConversation emptyDB 1 100 = [] :=
  ⟨rfl, rfl⟩

/-- C8 (amended): when no Membership exists for (userId, conversationId),
`markAsRead` completes without error as a silent no-op, returning the state
unchanged. -/
theorem markAsRead_missing_membership_noop (s : DB) (now : Int)
    (userId conversationId : Nat)
    (h : membershipsOfUserConversation s userId conversationId = []) :
    markAsRead s now userId conversationId = Except.ok ((), s) := by
  unfold markAsRead
  rw [h]
  rfl

/-- C8 witness: the amended theorem applied at the empty database. -/
theorem markAsRead_missing_membership_noop_witness :
    membershipsOfUserConversation emptyDB 1 100 = [] ∧
    markAsRead emptyDB 9 1 100 = Except.ok ((), emptyDB) :=
  ⟨by decide, markAsRead_missing_membership_noop emptyDB 9 1 100 (by decide)⟩

/-! ## C7: duplicate ids in `createGroupConversation` -/

/-- C7 (counterexample): `createGroupConversation` with `memberIds = [1, 1]`
produces two Memberships for user 1 on the new conversation, violating the
at-most-one-Membership-per-(conversation, user) claim. -/
theorem createGroup_duplicate_members_cx :
    ∃ s' : DB, createGroupConversation emptyDB 7 "g" [1, 1] 0 =
        Except.ok (0, s') ∧
      (membershipsOfUserConversation s' 1 0).length = 2 :=
  ⟨_, rfl, by decide⟩

/-- C7 (amended): `createGroupConversation` inserts one Membership for the
creator followed by one Membership per entry of `memberIds`, with no
deduplication: the member list of the new conversation is exactly
`creatorId :: memberIds`, so repeated ids in `memberIds` (or the creator's
id appearing there) do produce duplicate Memberships. -/
theorem createGroup_memberships_follow_input (s : DB) (now : Int)
    (name : String) (memberIds : List Nat) (creatorId : Nat)
    (hfresh : ∀ m ∈ s.conversationMembers, m.conversationId ≠ s.nextId) :
    ∃ s' : DB, createGroupConversation s now name memberIds creatorId =
        Except.ok (s.nextId, s') ∧
      (membershipsOfConversation s' s.nextId).map (fun m => m.userId) =
        creatorId :: memberIds := by
  refine ⟨_, rfl, ?_⟩
  unfold membershipsOfConversation
  rw [List.filter_append]
  have hold : s.conversationMembers.filter
      (fun m => m.conversationId == s.nextId) = [] := by
    rw [List.filter_eq_nil_iff]
    intro m hm
    simpa using hfresh m hm
  rw [hold]
  simp only [List.nil_append, List.filter_cons]
  have hmap : ∀ (start : Nat),
      ((memberIds.enum.map (fun p =>
          ({ id := start + p.1, conversationId := s.nextId,
             userId := p.2, lastReadAt := now } : ChatMembership))).filter
        (fun m => m.conversationId == s.nextId)).map (fun m => m.userId) =
        memberIds := by
    intro start
    rw [List.filter_eq_self.mpr]
    · rw [List.map_map]
      have : ((fun m => m.userId) ∘ fun p : Nat × Nat =>
          ({ id := start + p.1, conversationId := s.nextId,
             userId := p.2, lastReadAt := now } : ChatMembership)) = Prod.snd := by
        funext p
        rfl
      rw [this, List.enum_map_snd]
    · intro m hm
      rw [List.mem_map] at hm
      obtain ⟨p, _, hp⟩ := hm
      subst hp
      simp
  simp only [beq_self_eq_true, if_pos, List.map_cons]
  exact congrArg (fun l => creatorId :: l) (hmap (s.nextId + 2))

/-- C7 witness: the amended theorem applied to a concrete call whose
`memberIds` repeats an id. -/
theorem createGroup_memberships_follow_input_witness :
    (∀ m ∈ emptyDB.conversationMembers, m.conversationId ≠ emptyDB.nextId) ∧
    ∃ s' : DB, createGroupConversation emptyDB 7 "g" [1, 1] 0 =
        Except.ok (0, s') ∧
      (membershipsOfConversation s' 0).map (fun m => m.userId) = [0, 1, 1] :=
  ⟨by decide, by
    simpa using createGroup_memberships_follow_input emptyDB 7 "g" [1, 1] 0
      (by decide)⟩
/-! ## Generic list helpers -/

/-- Two filters over the same list commute. -/
theorem filter_comm' {α : Type} (p q : α → Bool) (l : List α) :
    (l.filter p).filter q = (l.filter q).filter p := by
  rw [List.filter_filter, List.filter_filter]
  exact List.filter_congr (fun a _ => Bool.and_comm (q a) (p a))

/-- `find?` by id over an id-preserving patch of the matching document. -/
theorem find?_map_patch {α : Type} (idOf : α → Nat) (f : α → α)
    (hid : ∀ a, idOf (f a) = idOf a) (l : List α) (n : Nat) (a : α)
    (h : l.find? (fun x => idOf x == n) = some a) :
    (l.map (fun x => if idOf x == n then f x else x)).find?
      (fun x => idOf x == n) = some (f a) := by
  induction l with
  | nil => simp at h
  | cons b bs ih =>
    rw [List.map_cons]
    by_cases hb : (idOf b == n) = true
    · rw [@List.find?_cons_of_pos _ (fun x => idOf x == n) b bs hb] at h
      obtain rfl : b = a := by simpa using h
      rw [if_pos hb]
      exact @List.find?_cons_of_pos _ (fun x => idOf x == n) (f b) _
        (by simpa [hid] using hb)
    · rw [@List.find?_cons_of_neg _ (fun x => idOf x == n) b bs hb] at h
      rw [if_neg hb]
      rw [@List.find?_cons_of_neg _ (fun x => idOf x == n) b _ hb]
      exact ih h

/-! ## C5: only the sender may soft-delete -/

/-- A concrete store holding one message from user 2. -/
def c5DB : DB :=
  { emptyDB with
    messages := [{ id := 102, conversationId := 100, senderId := 2,
                   body := "hi", createdAt := 0, isDeleted := false }] }

/-- The message stored in `c5DB`. -/
def c5msg : Message :=
  { id := 102, conversationId := 100, senderId := 2, body := "hi",
    createdAt := 0, isDeleted := false }

/-- C5: for a message `msg` present in the store, `deleteMessage` by anyone
other than the sender fails with the permission error (the mutation failing,
no state change is produced), while `deleteMessage` by the sender succeeds
and patches the message to `isDeleted := true` — regardless of whether it
was already deleted, so a repeated soft-delete keeps `isDeleted = true` and
never resets it. -/
theorem deleteMessage_owner_only (s : DB) (messageId userId : Nat)
    (msg : Message) (hmsg : getMessage s messageId = some msg) :
    (msg.senderId ≠ userId →
      deleteMessage s messageId userId =
        Except.error "You can only delete your own messages") ∧
    (msg.senderId = userId →
      ∃ s' : DB, deleteMessage s messageId userId = Except.ok ((), s') ∧
        getMessage s' messageId = some { msg with isDeleted := true } ∧
        s'.messages = s.messages.map (fun m =>
          if m.id == messageId then { m with isDeleted := true } else m)) := by
  have hstep : deleteMessage s messageId userId =
      if (msg.senderId != userId) = true then
        Except.error "You can only delete your own messages"
      else
        Except.ok ((),
          { s with
            messages := s.messages.map (fun m =>
              if m.id == messageId then { m with isDeleted := true } else m) }) := by
    unfold deleteMessage
    rw [hmsg]
  constructor
  · intro hne
    rw [hstep, if_pos (by simpa using hne)]
  · intro heq
    rw [hstep, if_neg (by simp [heq])]
    refine ⟨_, rfl, ?_, rfl⟩
    have hmsg' : List.find? (fun m => m.id == messageId) s.messages = some msg := hmsg
    exact find?_map_patch (fun m : Message => m.id)
      (fun m => { m with isDeleted := true }) (fun _ => rfl)
      s.messages messageId msg hmsg'

/-- C5 witness: in `c5DB`, the non-sender's delete fails with the permission
error and the sender's delete flips `isDeleted` to true. -/
theorem deleteMessage_owner_only_witness :
    getMessage c5DB 102 = some c5msg ∧
    deleteMessage c5DB 102 3 =
      Except.error "You can only delete your own messages" ∧
    (∃ s' : DB, deleteMessage c5DB 102 2 = Except.ok ((), s') ∧
      getMessage s' 102 = some { c5msg with isDeleted := true }) := by
  refine ⟨by decide, ?_, ?_⟩
  · exact (deleteMessage_owner_only c5DB 102 3 c5msg (by decide)).1 (by decide)
  · obtain ⟨s', h1, h2, _⟩ :=
      (deleteMessage_owner_only c5DB 102 2 c5msg (by decide)).2 rfl
    exact ⟨s', h1, h2⟩

/-! ## C4: reaction toggling -/

/-- C4: `toggleReaction` rejects emojis outside the fixed allowed set with
an error (the mutation failing, no state change is produced); for an allowed
emoji, toggling with no existing reaction of the user on the message inserts
exactly one, toggling with an existing same-emoji reaction removes it
leaving zero, and toggling with an existing different-emoji reaction leaves
exactly one reaction whose emoji is the new one. -/
theorem toggleReaction_toggle_semantics (s : DB) (messageId userId : Nat)
    (e : String) :
    (e ∉ ALLOWED_EMOJIS →
      toggleReaction s messageId userId e =
        Except.error
          ("Invalid emoji. Allowed: " ++ String.intercalate ", " ALLOWED_EMOJIS)) ∧
    (e ∈ ALLOWED_EMOJIS →
      (reactionsOfMessageUser s messageId userId = [] →
        ∃ s' : DB, toggleReaction s messageId userId e = Except.ok ((), s') ∧
          reactionsOfMessageUser s' messageId userId =
            [{ id := s.nextId, messageId := messageId, userId := userId,
               emoji := e }]) ∧
      (∀ r : Reaction, reactionsOfMessageUser s messageId userId = [r] →
        (r.emoji = e →
          ∃ s' : DB, toggleReaction s messageId userId e = Except.ok ((), s') ∧
            reactionsOfMessageUser s' messageId userId = []) ∧
        (r.emoji ≠ e →
          ∃ s' : DB, toggleReaction s messageId userId e = Except.ok ((), s') ∧
            reactionsOfMessageUser s' messageId userId =
              [{ id := s.nextId, messageId := messageId, userId := userId,
                 emoji := e }]))) := by
  have hq : ∀ s' : DB, reactionsOfMessageUser s' messageId userId =
      s'.reactions.filter (fun r => r.messageId == messageId && r.userId == userId) :=
    fun _ => rfl
  have hstep : toggleReaction s messageId userId e =
      if !(ALLOWED_EMOJIS.contains e) then
        Except.error
          ("Invalid emoji. Allowed: " ++ String.intercalate ", " ALLOWED_EMOJIS)
      else
        match (reactionsOfMessageUser s messageId userId).find?
            (fun r => r.emoji == e) with
        | some sameReaction =>
          Except.ok ((),
            { s with reactions :=
                s.reactions.filter (fun r => r.id != sameReaction.id) })
        | none =>
          Except.ok ((),
            { s with
              reactions :=
                (s.reactions.filter (fun r =>
                  !(((reactionsOfMessageUser s messageId userId).map
                      (fun r => r.id)).contains r.id))) ++
                [{ id := s.nextId, messageId := messageId, userId := userId,
                   emoji := e }],
              nextId := s.nextId + 1 }) := rfl
  constructor
  · intro he
    rw [hstep, if_pos (by simpa using he)]
  · intro hval
    rw [if_neg (by simpa using hval)] at hstep
    refine ⟨?_, ?_⟩
    · intro h0
      rw [h0] at hstep
      simp only [List.find?_nil, List.map_nil] at hstep
      refine ⟨_, hstep, ?_⟩
      rw [hq] at h0 ⊢
      dsimp only
      rw [List.filter_append, filter_comm', h0]
      simp
    · intro r h1
      constructor
      · intro hre
        rw [h1, @List.find?_cons_of_pos _ (fun x => x.emoji == e) r []
          (by simp [hre])] at hstep
        refine ⟨_, hstep, ?_⟩
        rw [hq] at h1 ⊢
        dsimp only
        rw [filter_comm', h1]
        simp
      · intro hne
        rw [h1, @List.find?_cons_of_neg _ (fun x => x.emoji == e) r []
          (by simp [hne])] at hstep
        simp only [List.find?_nil, List.map_cons, List.map_nil] at hstep
        refine ⟨_, hstep, ?_⟩
        rw [hq] at h1 ⊢
        dsimp only
        rw [List.filter_append, filter_comm', h1]
        simp

/-- C4 witness: the theorem applied at a concrete store for the invalid
emoji, the fresh-insert case, and (after that insert) the toggle-off case. -/
theorem toggleReaction_toggle_semantics_witness :
    ("x" ∉ ALLOWED_EMOJIS ∧
      toggleReaction emptyDB 5 1 "x" =
        Except.error
          ("Invalid emoji. Allowed: " ++ String.intercalate ", " ALLOWED_EMOJIS)) ∧
    ("👍" ∈ ALLOWED_EMOJIS ∧ reactionsOfMessageUser emptyDB 5 1 = [] ∧
      ∃ s' : DB, toggleReaction emptyDB 5 1 "👍" = Except.ok ((), s') ∧
        reactionsOfMessageUser s' 5 1 =
          [{ id := 0, messageId := 5, userId := 1, emoji := "👍" }]) := by
  refine ⟨⟨by decide, ?_⟩, by decide, rfl, ?_⟩
  · exact (toggleReaction_toggle_semantics emptyDB 5 1 "x").1 (by decide)
  · exact ((toggleReaction_toggle_semantics emptyDB 5 1 "👍").2 (by decide)).1 rfl

/-! ## Characterizing `firstDesc` and `buildEntries` -/

/-- Auxiliary induction for `firstDesc`: folding from a non-empty
accumulator yields an element with maximal `createdAt`. -/
theorem firstDesc_go (l : List Message) : ∀ acc : Message,
    ∃ lm, List.foldl
        (fun acc m =>
          match acc with
          | none => some m
          | some b => if b.createdAt ≤ m.createdAt then some m else some b)
        (some acc) l = some lm ∧
      (lm = acc ∨ lm ∈ l) ∧ acc.createdAt ≤ lm.createdAt ∧
      ∀ x ∈ l, x.createdAt ≤ lm.createdAt := by
  induction l with
  | nil =>
    intro acc
    exact ⟨acc, rfl, Or.inl rfl, le_refl _, by simp⟩
  | cons b bs ih =>
    intro acc
    by_cases hle : acc.createdAt ≤ b.createdAt
    · obtain ⟨lm, h1, h2, h3, h4⟩ := ih b
      refine ⟨lm, ?_, ?_, le_trans hle h3, ?_⟩
      · rw [List.foldl_cons]
        dsimp only
        rw [if_pos hle]
        exact h1
      · rcases h2 with rfl | h2
        · exact Or.inr (List.mem_cons_self _ _)
        · exact Or.inr (List.mem_cons_of_mem _ h2)
      · intro x hx
        rcases List.mem_cons.mp hx with rfl | hx
        · exact h3
        · exact h4 x hx
    · obtain ⟨lm, h1, h2, h3, h4⟩ := ih acc
      refine ⟨lm, ?_, ?_, h3, ?_⟩
      · rw [List.foldl_cons]
        dsimp only
        rw [if_neg hle]
        exact h1
      · rcases h2 with rfl | h2
        · exact Or.inl rfl
        · exact Or.inr (List.mem_cons_of_mem _ h2)
      · intro x hx
        rcases List.mem_cons.mp hx with rfl | hx
        · exact le_trans (le_of_lt (lt_of_not_le hle)) h3
        · exact h4 x hx

/-- `firstDesc` of a non-empty list is a member with maximal `createdAt`. -/
theorem firstDesc_spec (l : List Message) (h : l ≠ []) :
    ∃ lm, firstDesc l = some lm ∧ lm ∈ l ∧
      ∀ x ∈ l, x.createdAt ≤ lm.createdAt := by
  match l, h with
  | m :: rest, _ =>
    obtain ⟨lm, h1, h2, h3, h4⟩ := firstDesc_go rest m
    refine ⟨lm, h1, ?_, ?_⟩
    · rcases h2 with rfl | h2
      · exact List.mem_cons_self _ _
      · exact List.mem_cons_of_mem _ h2
    · intro x hx
      rcases List.mem_cons.mp hx with rfl | hx
      · exact h3
      · exact h4 x hx

/-- Every entry produced by the `getUserConversations` loop comes from one
of the scanned memberships, and its preview and unread count are the ones
computed by the loop body from that membership. -/
theorem buildEntries_mem (s : DB) (u : Nat) :
    ∀ ms : List ChatMembership, ∀ e ∈ buildEntries s u ms,
      ∃ m ∈ ms, getConversation s m.conversationId = some e.conversation ∧
        e.latestMessage = firstDesc (messagesOfConversation s e.conversation.id) ∧
        e.unreadCount = ((messagesOfConversation s e.conversation.id).filter
          (fun msg =>
            decide (m.lastReadAt < msg.createdAt) && msg.senderId != u)).length := by
  intro ms
  induction ms with
  | nil =>
    intro e he
    simp [buildEntries] at he
  | cons m rest ih =>
    intro e he
    have hstep : buildEntries s u (m :: rest) =
        match getConversation s m.conversationId with
        | none => buildEntries s u rest
        | some conv =>
          { conversation := conv,
            members := ((membershipsOfConversation s conv.id).map
              (fun mm => getUser s mm.userId)).filterMap id,
            latestMessage := firstDesc (messagesOfConversation s conv.id),
            latestMessageSender :=
              match firstDesc (messagesOfConversation s conv.id) with
              | some lm => getUser s lm.senderId
              | none => none,
            unreadCount := ((messagesOfConversation s conv.id).filter
              (fun msg =>
                decide (m.lastReadAt < msg.createdAt) && msg.senderId != u)).length,
            memberCount := (membershipsOfConversation s conv.id).length } ::
            buildEntries s u rest := rfl
    rw [hstep] at he
    rcases hconv : getConversation s m.conversationId with _ | conv
    · rw [hconv] at he
      obtain ⟨m', hm', hrest⟩ := ih e he
      exact ⟨m', List.mem_cons_of_mem _ hm', hrest⟩
    · rw [hconv] at he
      rcases List.mem_cons.mp he with rfl | he
      · exact ⟨m, List.mem_cons_self _ _, hconv, rfl, rfl⟩
      · obtain ⟨m', hm', hrest⟩ := ih e he
        exact ⟨m', List.mem_cons_of_mem _ hm', hrest⟩

/-- Membership in the sorted `getUserConversations` output coincides with
membership in the entries built from the user's memberships. -/
theorem mem_getUserConversations_iff (s : DB) (u : Nat) (e : ConvEntry) :
    e ∈ getUserConversations s u ↔
      e ∈ buildEntries s u (membershipsOfUser s u) :=
  (List.perm_insertionSort
    (fun a b => entrySortKey b ≤ entrySortKey a)
    (buildEntries s u (membershipsOfUser s u))).mem_iff

/-! ## C6: sidebar preview vs soft-deleted messages -/

/-- A store where the most recent message of conversation 100 is
soft-deleted while an older one is not. -/
def c6DB : DB :=
  { emptyDB with
    conversations := [{ id := 100, isGroup := false, name := none, createdAt := 0 }],
    conversationMembers := [{ id := 101, conversationId := 100, userId := 1,
                              lastReadAt := -1 }],
    messages := [{ id := 102, conversationId := 100, senderId := 2, body := "hi",
                   createdAt := 0, isDeleted := false },
                 { id := 103, conversationId := 100, senderId := 2, body := "gone",
                   createdAt := 1, isDeleted := true }],
    nextId := 200 }

/-- The entry `getUserConversations c6DB 1` produces for conversation 100. -/
def c6Entry : ConvEntry :=
  { conversation := { id := 100, isGroup := false, name := none, createdAt := 0 },
    members := [],
    latestMessage := some { id := 103, conversationId := 100, senderId := 2,
                            body := "gone", createdAt := 1, isDeleted := true },
    latestMessageSender := none,
    unreadCount := 2,
    memberCount := 1 }

/-- C6 (counterexample): in `c6DB` the most recent non-deleted message of
conversation 100 is the `createdAt = 0` one, yet the preview attached by
`getUserConversations` is the soft-deleted `createdAt = 1` message — the
preview is not the most recent non-deleted message. -/
theorem listForUser_preview_includes_deleted_cx :
    (∃ e ∈ getUserConversations c6DB 1, e.conversation.id = 100 ∧
      e.latestMessage = some { id := 103, conversationId := 100, senderId := 2,
                               body := "gone", createdAt := 1, isDeleted := true }) ∧
    (∀ e ∈ getUserConversations c6DB 1, e.conversation.id = 100 →
      e.latestMessage ≠ some { id := 102, conversationId := 100, senderId := 2,
                               body := "hi", createdAt := 0, isDeleted := false }) ∧
    ({ id := 102, conversationId := 100, senderId := 2, body := "hi",
       createdAt := 0, isDeleted := false } : Message) ∈
      messagesOfConversation c6DB 100 ∧
    (∀ m ∈ messagesOfConversation c6DB 100, m.isDeleted = false →
      m.createdAt ≤ 0) := by
  decide

/-- C6 (amended): the preview message attached to each conversation by
`listForUser` is the most recent Message of the conversation **regardless of
its `isDeleted` flag**: it equals `firstDesc` over all of the conversation's
messages and, whenever the conversation has any message at all, it is a
message of the conversation with maximal `createdAt` (soft-deleted or not). -/
theorem listForUser_preview_latest_regardless (s : DB) (U : Nat) :
    ∀ e ∈ getUserConversations s U,
      e.latestMessage = firstDesc (messagesOfConversation s e.conversation.id) ∧
      (messagesOfConversation s e.conversation.id ≠ [] →
        ∃ lm, e.latestMessage = some lm ∧
          lm ∈ messagesOfConversation s e.conversation.id ∧
          ∀ m' ∈ messagesOfConversation s e.conversation.id,
            m'.createdAt ≤ lm.createdAt) := by
  intro e he
  have he' : e ∈ buildEntries s U (membershipsOfUser s U) :=
    (mem_getUserConversations_iff s U e).mp he
  obtain ⟨m, _, _, hlatest, _⟩ := buildEntries_mem s U _ e he'
  refine ⟨hlatest, fun hne => ?_⟩
  obtain ⟨lm, h1, h2, h3⟩ := firstDesc_spec _ hne
  exact ⟨lm, by rw [hlatest]; exact h1, h2, h3⟩

/-- C6 witness: the amended theorem applied to the concrete entry of
`c6DB`, whose conversation has messages. -/
theorem listForUser_preview_latest_regardless_witness :
    c6Entry ∈ getUserConversations c6DB 1 ∧
    messagesOfConversation c6DB c6Entry.conversation.id ≠ [] ∧
    c6Entry.latestMessage =
      firstDesc (messagesOfConversation c6DB c6Entry.conversation.id) ∧
    ∃ lm, c6Entry.latestMessage = some lm ∧
      lm ∈ messagesOfConversation c6DB c6Entry.conversation.id ∧
      ∀ m' ∈ messagesOfConversation c6DB c6Entry.conversation.id,
        m'.createdAt ≤ lm.createdAt := by
  have hmem : c6Entry ∈ getUserConversations c6DB 1 := by decide
  have h := listForUser_preview_latest_regardless c6DB 1 c6Entry hmem
  exact ⟨hmem, by decide, h.1, h.2 (by decide)⟩

/-! ## C9: typing-indicator expiry -/

/-- Outcome of `setTyping` under the at-most-one-indicator-per-pair
invariant: afterwards the user has exactly one indicator for the
conversation and its `updatedAt` is the call time. -/
theorem setTyping_outcome (s : DB) (t0 : Int) (C U : Nat)
    (hlen : (typingOfUserConversation s U C).length ≤ 1) :
    ∃ (s' : DB) (ind : TypingIndicator),
      setTyping s t0 C U = Except.ok ((), s') ∧
      typingOfUserConversation s' U C = [ind] ∧
      ind.conversationId = C ∧ ind.userId = U ∧ ind.updatedAt = t0 ∧
      s'.users = s.users := by
  have hq : ∀ s' : DB, typingOfUserConversation s' U C =
      s'.typingIndicators.filter (fun x => x.userId == U && x.conversationId == C) :=
    fun _ => rfl
  have hstep : setTyping s t0 C U =
      match uniqueQ (typingOfUserConversation s U C) with
      | .error e => .error e
      | .ok (some existing) =>
        .ok ((),
          { s with
            typingIndicators := s.typingIndicators.map (fun x =>
              if x.id == existing.id then { x with updatedAt := t0 } else x) })
      | .ok none =>
        .ok ((),
          { s with
            typingIndicators := s.typingIndicators ++
              [{ id := s.nextId, conversationId := C, userId := U,
                 updatedAt := t0 }],
            nextId := s.nextId + 1 }) := rfl
  rcases hl : typingOfUserConversation s U C with _ | ⟨ex, _ | ⟨y, rest⟩⟩
  · rw [hl] at hstep
    refine ⟨_, { id := s.nextId, conversationId := C, userId := U,
                 updatedAt := t0 }, hstep, ?_, rfl, rfl, rfl, rfl⟩
    rw [hq]
    dsimp only
    rw [List.filter_append]
    rw [hq] at hl
    rw [hl]
    simp
  · rw [hl] at hstep
    have hex : ex ∈ typingOfUserConversation s U C := by
      rw [hl]
      exact List.mem_cons_self _ _
    have hexq := (List.mem_filter.mp hex).2
    have hexU : ex.userId = U := by
      have := hexq
      simp only [Bool.and_eq_true, beq_iff_eq] at this
      exact this.1
    have hexC : ex.conversationId = C := by
      have := hexq
      simp only [Bool.and_eq_true, beq_iff_eq] at this
      exact this.2
    refine ⟨_, { ex with updatedAt := t0 }, hstep, ?_, hexC, hexU, rfl, rfl⟩
    rw [hq]
    dsimp only
    rw [List.filter_map]
    have hcongr : s.typingIndicators.filter
        ((fun x => x.userId == U && x.conversationId == C) ∘ (fun x =>
          if x.id == ex.id then { x with updatedAt := t0 } else x)) =
        s.typingIndicators.filter
          (fun x => x.userId == U && x.conversationId == C) := by
      refine List.filter_congr ?_
      intro x _
      by_cases hx : x.id = ex.id
      · simp [hx]
      · simp [hx]
    rw [hcongr]
    rw [hq] at hl
    rw [hl]
    simp
  · rw [hl] at hlen
    simp at hlen

/-- C9: after `setTyping(C, U)` at time `t0` (under the unique-indicator
invariant), an indicator of U is among the active typers that another user V
sees at time `t` exactly when `t - t0 < 2000` ms; the positive case also
puts U's resolved display name in the `getTypingUsers` output; and U is
never among the active typers U themself queries. -/
theorem typing_expiry_window (s : DB) (t0 t : Int) (C U V : Nat)
    (hV : V ≠ U)
    (hlen : (typingOfUserConversation s U C).length ≤ 1) :
    ∃ s' : DB, setTyping s t0 C U = Except.ok ((), s') ∧
      ((∃ i ∈ activeTypingIndicators s' t C V, i.userId = U) ↔
        t - t0 < TYPING_EXPIRY_MS) ∧
      (t - t0 < TYPING_EXPIRY_MS →
        (match getUser s U with
         | some user => user.name
         | none => "Someone") ∈ getTypingUsers s' t C V) ∧
      (∀ i ∈ activeTypingIndicators s' t C U, i.userId ≠ U) := by
  obtain ⟨s', ind, hset, hone, hCid, hUid, hT, hUsers⟩ :=
    setTyping_outcome s t0 C U hlen
  have hmemInd : ind ∈ s'.typingIndicators := by
    have : ind ∈ typingOfUserConversation s' U C := by
      rw [hone]
      exact List.mem_cons_self _ _
    exact (List.mem_filter.mp this).1
  have hindActive : t - t0 < TYPING_EXPIRY_MS →
      ind ∈ activeTypingIndicators s' t C V := by
    intro hfresh
    unfold activeTypingIndicators typingOfConversation
    rw [List.filter_filter]
    refine List.mem_filter.mpr ⟨hmemInd, ?_⟩
    have h1 : (ind.userId != V) = true := by
      simp [hUid, Ne.symm hV]
    have h2 : decide (t - ind.updatedAt < TYPING_EXPIRY_MS) = true := by
      rw [hT]
      exact decide_eq_true hfresh
    simp [h1, h2, hCid]
  refine ⟨s', hset, ⟨?_, ?_⟩, ?_, ?_⟩
  · rintro ⟨i, hi, hiU⟩
    unfold activeTypingIndicators typingOfConversation at hi
    rw [List.filter_filter] at hi
    obtain ⟨hiMem, hiPred⟩ := List.mem_filter.mp hi
    simp only [Bool.and_eq_true, bne_iff_ne, decide_eq_true_eq, beq_iff_eq] at hiPred
    have : i ∈ typingOfUserConversation s' U C :=
      List.mem_filter.mpr ⟨hiMem, by simp [hiU, hiPred.2]⟩
    rw [hone] at this
    obtain rfl : i = ind := by simpa using this
    rw [← hT]
    exact hiPred.1.2
  · intro hfresh
    exact ⟨ind, hindActive hfresh, hUid⟩
  · intro hfresh
    unfold getTypingUsers
    refine List.mem_map.mpr ⟨ind, hindActive hfresh, ?_⟩
    rw [hUid]
    have hgu : getUser s' U = getUser s U := by
      unfold getUser
      rw [hUsers]
    rw [hgu]
  · intro i hi
    unfold activeTypingIndicators at hi
    have := (List.mem_filter.mp hi).2
    simp only [Bool.and_eq_true, bne_iff_ne] at this
    exact this.1

/-- C9 witness: the theorem applied at a concrete state with a named user;
at 1500 ms the indicator is active, as reported, and expires at 2000. -/
theorem typing_expiry_window_witness :
    (4 ≠ 3 ∧ (typingOfUserConversation
      { emptyDB with
        users := [{ id := 3, clerkId := "c", name := "Alex", email := "a",
                    avatarUrl := "", isOnline := true, lastSeen := 0 }],
        nextId := 10 } 3 7).length ≤ 1) ∧
    ∃ s' : DB, setTyping
      { emptyDB with
        users := [{ id := 3, clerkId := "c", name := "Alex", email := "a",
                    avatarUrl := "", isOnline := true, lastSeen := 0 }],
        nextId := 10 } 100 7 3 = Except.ok ((), s') ∧
      ((∃ i ∈ activeTypingIndicators s' 1600 7 4, i.userId = 3) ↔
        (1600 : Int) - 100 < TYPING_EXPIRY_MS) ∧
      ((1600 : Int) - 100 < TYPING_EXPIRY_MS →
        (match getUser
          { emptyDB with
            users := [{ id := 3, clerkId := "c", name := "Alex", email := "a",
                        avatarUrl := "", isOnline := true, lastSeen := 0 }],
            nextId := 10 } 3 with
         | some user => user.name
         | none => "Someone") ∈ getTypingUsers s' 1600 7 4) ∧
      (∀ i ∈ activeTypingIndicators s' 1600 7 3, i.userId ≠ 3) :=
  ⟨⟨by decide, by decide⟩,
    typing_expiry_window _ 100 1600 7 3 4 (by decide) (by decide)⟩

/-! ## C3: unread-count semantics -/

/-- A conversation found by id has that id. -/
theorem getConversation_id (s : DB) (cid : Nat) (c : Conversation)
    (h : getConversation s cid = some c) : c.id = cid := by
  have := List.find?_some h
  simpa using this

/-- Every scanned membership whose conversation resolves contributes an
entry with that conversation. -/
theorem buildEntries_exists (s : DB) (u : Nat) :
    ∀ ms : List ChatMembership, ∀ m ∈ ms, ∀ conv : Conversation,
      getConversation s m.conversationId = some conv →
      ∃ e ∈ buildEntries s u ms, e.conversation = conv := by
  intro ms
  induction ms with
  | nil =>
    intro m hm
    simp at hm
  | cons m0 rest ih =>
    intro m hm conv hconv
    have hstep : buildEntries s u (m0 :: rest) =
        match getConversation s m0.conversationId with
        | none => buildEntries s u rest
        | some c =>
          { conversation := c,
            members := ((membershipsOfConversation s c.id).map
              (fun mm => getUser s mm.userId)).filterMap id,
            latestMessage := firstDesc (messagesOfConversation s c.id),
            latestMessageSender :=
              match firstDesc (messagesOfConversation s c.id) with
              | some lm => getUser s lm.senderId
              | none => none,
            unreadCount := ((messagesOfConversation s c.id).filter
              (fun msg =>
                decide (m0.lastReadAt < msg.createdAt) && msg.senderId != u)).length,
            memberCount := (membershipsOfConversation s c.id).length } ::
            buildEntries s u rest := rfl
    rcases List.mem_cons.mp hm with rfl | hm
    · rw [hstep, hconv]
      exact ⟨_, List.mem_cons_self _ _, rfl⟩
    · obtain ⟨e, he, hec⟩ := ih m hm conv hconv
      rcases hc0 : getConversation s m0.conversationId with _ | c0
      · rw [hstep, hc0]
        exact ⟨e, he, hec⟩
      · rw [hstep, hc0]
        exact ⟨e, List.mem_cons_of_mem _ he, hec⟩

/-- In a state where user U's membership in conversation C is the single
`mem` and the conversation exists, the sidebar list has an entry for C and
every such entry's unread count is the number of messages of C newer than
`mem.lastReadAt` and not sent by U. -/
theorem listForUser_unread_for (s : DB) (U C : Nat) (mem : ChatMembership)
    (conv : Conversation)
    (hmem : membershipsOfUserConversation s U C = [mem])
    (hconv : getConversation s C = some conv) :
    (∃ e ∈ getUserConversations s U, e.conversation.id = C) ∧
    (∀ e ∈ getUserConversations s U, e.conversation.id = C →
      e.unreadCount = ((messagesOfConversation s C).filter
        (fun msg =>
          decide (mem.lastReadAt < msg.createdAt) && msg.senderId != U)).length) := by
  have hmemMem : mem ∈ membershipsOfUserConversation s U C := by
    rw [hmem]
    exact List.mem_cons_self _ _
  have hmemPred := (List.mem_filter.mp hmemMem).2
  have hmemU : mem.userId = U := by
    simp only [Bool.and_eq_true, beq_iff_eq] at hmemPred
    exact hmemPred.1
  have hmemC : mem.conversationId = C := by
    simp only [Bool.and_eq_true, beq_iff_eq] at hmemPred
    exact hmemPred.2
  constructor
  · have hmemUser : mem ∈ membershipsOfUser s U :=
      List.mem_filter.mpr ⟨(List.mem_filter.mp hmemMem).1, by simp [hmemU]⟩
    obtain ⟨e, he, hec⟩ := buildEntries_exists s U (membershipsOfUser s U) mem
      hmemUser conv (by rw [hmemC]; exact hconv)
    refine ⟨e, (mem_getUserConversations_iff s U e).mpr he, ?_⟩
    rw [hec]
    exact getConversation_id s C conv hconv
  · intro e he heC
    have he' : e ∈ buildEntries s U (membershipsOfUser s U) :=
      (mem_getUserConversations_iff s U e).mp he
    obtain ⟨m, hmU, hmConv, _, hcount⟩ := buildEntries_mem s U _ e he'
    have hmCid : m.conversationId = C := by
      have := getConversation_id s m.conversationId e.conversation hmConv
      rw [this] at heC
      exact heC
    have : m ∈ membershipsOfUserConversation s U C := by
      refine List.mem_filter.mpr ⟨(List.mem_filter.mp hmU).1, ?_⟩
      have hmUid := (List.mem_filter.mp hmU).2
      simp only [beq_iff_eq] at hmUid
      simp [hmUid, hmCid]
    rw [hmem] at this
    obtain rfl : m = mem := by simpa using this
    rw [hcount, heC]

/-- Outcome of `markAsRead` when the membership exists and is unique: the
membership's `lastReadAt` becomes the call time and nothing else changes. -/
theorem markAsRead_outcome (s : DB) (now : Int) (U C : Nat)
    (mem : ChatMembership)
    (hmem : membershipsOfUserConversation s U C = [mem]) :
    ∃ s₂ : DB, markAsRead s now U C = Except.ok ((), s₂) ∧
      membershipsOfUserConversation s₂ U C = [{ mem with lastReadAt := now }] ∧
      getConversation s₂ C = getConversation s C ∧
      messagesOfConversation s₂ C = messagesOfConversation s C := by
  have hstep : markAsRead s now U C =
      match uniqueQ (membershipsOfUserConversation s U C) with
      | .error e => .error e
      | .ok none => .ok ((), s)
      | .ok (some membership) =>
        .ok ((),
          { s with
            conversationMembers := s.conversationMembers.map (fun m =>
              if m.id == membership.id then { m with lastReadAt := now } else m) }) :=
    rfl
  rw [hmem] at hstep
  refine ⟨_, hstep, ?_, rfl, rfl⟩
  have hq : ∀ s' : DB, membershipsOfUserConversation s' U C =
      s'.conversationMembers.filter
        (fun m => m.userId == U && m.conversationId == C) :=
    fun _ => rfl
  rw [hq]
  dsimp only
  rw [List.filter_map]
  have hcongr : s.conversationMembers.filter
      ((fun m => m.userId == U && m.conversationId == C) ∘ (fun m =>
        if m.id == mem.id then { m with lastReadAt := now } else m)) =
      s.conversationMembers.filter
        (fun m => m.userId == U && m.conversationId == C) := by
    refine List.filter_congr ?_
    intro x _
    by_cases hx : x.id = mem.id
    · simp [hx]
    · simp [hx]
  rw [hcongr]
  rw [hq] at hmem
  rw [hmem]
  simp

/-- C3: the unread count reported by `listForUser(U)` for a conversation C
(with U's unique membership `mem` and C present) is the number of messages
of C with `createdAt > mem.lastReadAt` and a sender other than U — so U's
own messages never count; and after `markAsRead(U, C)` at time `now` the
reported count becomes the number of messages newer than `now`, hence 0
whenever every message of C was created at or before `now`. -/
theorem listForUser_unread_semantics (s : DB) (U C : Nat)
    (mem : ChatMembership) (conv : Conversation)
    (hmem : membershipsOfUserConversation s U C = [mem])
    (hconv : getConversation s C = some conv) :
    (∃ e ∈ getUserConversations s U, e.conversation.id = C) ∧
    (∀ e ∈ getUserConversations s U, e.conversation.id = C →
      e.unreadCount = ((messagesOfConversation s C).filter
        (fun msg =>
          decide (mem.lastReadAt < msg.createdAt) && msg.senderId != U)).length) ∧
    (∀ (now : Int) (s₂ : DB), markAsRead s now U C = Except.ok ((), s₂) →
      (∃ e ∈ getUserConversations s₂ U, e.conversation.id = C) ∧
      (∀ e ∈ getUserConversations s₂ U, e.conversation.id = C →
        e.unreadCount = ((messagesOfConversation s C).filter
          (fun msg =>
            decide (now < msg.createdAt) && msg.senderId != U)).length) ∧
      ((∀ msg ∈ messagesOfConversation s C, msg.createdAt ≤ now) →
        ∀ e ∈ getUserConversations s₂ U, e.conversation.id = C →
          e.unreadCount = 0)) := by
  obtain ⟨hex, hcount⟩ := listForUser_unread_for s U C mem conv hmem hconv
  refine ⟨hex, hcount, ?_⟩
  intro now s₂ hmark
  obtain ⟨s₂', hmark', hmem₂, hconv₂, hmsgs₂⟩ := markAsRead_outcome s now U C mem hmem
  have heq : s₂' = s₂ := by
    have h := hmark'.symm.trans hmark
    rw [Except.ok.injEq, Prod.mk.injEq] at h
    exact h.2
  rw [heq] at hmem₂ hconv₂ hmsgs₂
  obtain ⟨hex₂, hcount₂⟩ := listForUser_unread_for s₂ U C
    { mem with lastReadAt := now } conv hmem₂ (by rw [hconv₂]; exact hconv)
  rw [hmsgs₂] at hcount₂
  refine ⟨hex₂, hcount₂, ?_⟩
  intro hall e he heC
  rw [hcount₂ e he heC]
  have : (messagesOfConversation s C).filter
      (fun msg => decide (now < msg.createdAt) && msg.senderId != U) = [] := by
    rw [List.filter_eq_nil_iff]
    intro msg hmsg
    have := hall msg hmsg
    simp [not_lt.mpr this]
  rw [this]
  rfl

/-- A store for the C3 witness: user 1's membership in conversation 100 has
`lastReadAt = 5`; messages at 3 (other), 7 (other), 9 (self). -/
def c3DB : DB :=
  { emptyDB with
    conversations := [{ id := 100, isGroup := false, name := none, createdAt := 0 }],
    conversationMembers := [{ id := 101, conversationId := 100, userId := 1,
                              lastReadAt := 5 }],
    messages := [{ id := 102, conversationId := 100, senderId := 2, body := "old",
                   createdAt := 3, isDeleted := false },
                 { id := 103, conversationId := 100, senderId := 2, body := "new",
                   createdAt := 7, isDeleted := false },
                 { id := 104, conversationId := 100, senderId := 1, body := "mine",
                   createdAt := 9, isDeleted := false }],
    nextId := 200 }

/-- User 1's membership row in `c3DB`. -/
def c3mem : ChatMembership :=
  { id := 101, conversationId := 100, userId := 1, lastReadAt := 5 }

/-- Conversation 100 in `c3DB`. -/
def c3conv : Conversation :=
  { id := 100, isGroup := false, name := none, createdAt := 0 }

/-- C3 witness: the theorem applied at `c3DB`; the reported unread count for
conversation 100 matches the filter formula (and concretely equals 1: only
the message at `createdAt = 7` from user 2 counts). -/
theorem listForUser_unread_semantics_witness :
    (membershipsOfUserConversation c3DB 1 100 = [c3mem] ∧
      getConversation c3DB 100 = some c3conv) ∧
    (∀ e ∈ getUserConversations c3DB 1, e.conversation.id = 100 →
      e.unreadCount = ((messagesOfConversation c3DB 100).filter
        (fun msg =>
          decide (c3mem.lastReadAt < msg.createdAt) && msg.senderId != 1)).length) ∧
    (∃ e ∈ getUserConversations c3DB 1, e.conversation.id = 100 ∧ e.unreadCount = 1) :=
  ⟨⟨by decide, by decide⟩,
    (listForUser_unread_semantics c3DB 1 100 c3mem c3conv (by decide) (by decide)).2.1,
    by decide⟩

/-! ## C10: `getOrCreateDirect` called with the same user twice -/

/-- A list of length at most one containing `a` is exactly `[a]`. -/
theorem eq_singleton_of_mem_of_length_le_one {α : Type} {l : List α} {a : α}
    (h : a ∈ l) (hl : l.length ≤ 1) : l = [a] := by
  match l, h with
  | [x], h =>
    obtain rfl : a = x := by simpa using h
    rfl
  | x :: y :: rest, h => simp at hl

/-- The dedup scan of `getOrCreateDirectConversation`, run with
`otherUserId` equal to the scanning user `A`: it succeeds on the first
membership of A whose conversation exists and is not a group (A's own
membership satisfies the `.unique()` lookup), and returns none when A has no
such membership. -/
theorem findDirectLoop_self (s : DB) (A : Nat)
    (hpair : ∀ m ∈ s.conversationMembers,
      (membershipsOfUserConversation s A m.conversationId).length ≤ 1) :
    ∀ ms : List ChatMembership, (∀ m ∈ ms, m ∈ membershipsOfUser s A) →
      ((∃ m ∈ ms, ∃ c, getConversation s m.conversationId = some c ∧
          c.isGroup = false) →
        ∃ cid, findDirectLoop s A ms = Except.ok (some cid) ∧
          (∃ c, getConversation s cid = some c ∧ c.isGroup = false) ∧
          ∃ m ∈ ms, m.conversationId = cid) ∧
      ((¬ ∃ m ∈ ms, ∃ c, getConversation s m.conversationId = some c ∧
          c.isGroup = false) →
        findDirectLoop s A ms = Except.ok none) := by
  intro ms
  induction ms with
  | nil =>
    intro _
    constructor
    · intro hex
      simp at hex
    · intro _
      rfl
  | cons m rest ih =>
    intro hms
    have hmUser : m ∈ membershipsOfUser s A := hms m (List.mem_cons_self _ _)
    have hrest : ∀ m' ∈ rest, m' ∈ membershipsOfUser s A :=
      fun m' hm' => hms m' (List.mem_cons_of_mem _ hm')
    obtain ⟨ihFound, ihNone⟩ := ih hrest
    have hunfold : findDirectLoop s A (m :: rest) =
        match getConversation s m.conversationId with
        | none => findDirectLoop s A rest
        | some conversation =>
          if conversation.isGroup then findDirectLoop s A rest
          else
            match uniqueQ (membershipsOfUserConversation s A m.conversationId) with
            | .error e => .error e
            | .ok none => findDirectLoop s A rest
            | .ok (some _) => .ok (some m.conversationId) := rfl
    rcases hc : getConversation s m.conversationId with _ | conv
    · have hstep : findDirectLoop s A (m :: rest) = findDirectLoop s A rest := by
        rw [hc] at hunfold
        exact hunfold
      constructor
      · intro hex
        have hex' : ∃ m' ∈ rest, ∃ c, getConversation s m'.conversationId = some c ∧
            c.isGroup = false := by
          rcases hex with ⟨m', hm', c, hc', hg⟩
          rcases List.mem_cons.mp hm' with rfl | hm'
          · rw [hc] at hc'
            exact absurd hc' (by simp)
          · exact ⟨m', hm', c, hc', hg⟩
        obtain ⟨cid, h1, h2, m', hm', h3⟩ := ihFound hex'
        exact ⟨cid, hstep.trans h1, h2, m', List.mem_cons_of_mem _ hm', h3⟩
      · intro hnone
        refine hstep.trans (ihNone ?_)
        rintro ⟨m', hm', c, hc', hg⟩
        exact hnone ⟨m', List.mem_cons_of_mem _ hm', c, hc', hg⟩
    · by_cases hg : conv.isGroup = true
      · have hstep : findDirectLoop s A (m :: rest) = findDirectLoop s A rest := by
          rw [hc] at hunfold
          dsimp only at hunfold
          rw [if_pos hg] at hunfold
          exact hunfold
        constructor
        · intro hex
          have hex' : ∃ m' ∈ rest, ∃ c, getConversation s m'.conversationId = some c ∧
              c.isGroup = false := by
            rcases hex with ⟨m', hm', c, hc', hgc⟩
            rcases List.mem_cons.mp hm' with rfl | hm'
            · rw [hc] at hc'
              obtain rfl : c = conv := by simpa using hc'.symm
              rw [hg] at hgc
              simp at hgc
            · exact ⟨m', hm', c, hc', hgc⟩
          obtain ⟨cid, h1, h2, m', hm', h3⟩ := ihFound hex'
          exact ⟨cid, hstep.trans h1, h2, m', List.mem_cons_of_mem _ hm', h3⟩
        · intro hnone
          refine hstep.trans (ihNone ?_)
          rintro ⟨m', hm', c, hc', hgc⟩
          exact hnone ⟨m', List.mem_cons_of_mem _ hm', c, hc', hgc⟩
      · have hgf : conv.isGroup = false := by
          cases hcg : conv.isGroup
          · rfl
          · exact absurd hcg hg
        have hmCM : m ∈ s.conversationMembers := (List.mem_filter.mp hmUser).1
        have hmA : (m.userId == A) = true := (List.mem_filter.mp hmUser).2
        have hmSelf : m ∈ membershipsOfUserConversation s A m.conversationId :=
          List.mem_filter.mpr ⟨hmCM, by simp [hmA]⟩
        have hsingle : membershipsOfUserConversation s A m.conversationId = [m] :=
          eq_singleton_of_mem_of_length_le_one hmSelf (hpair m hmCM)
        have hstep : findDirectLoop s A (m :: rest) =
            Except.ok (some m.conversationId) := by
          rw [hc] at hunfold
          dsimp only at hunfold
          rw [if_neg (by simp [hgf])] at hunfold
          rw [hsingle] at hunfold
          exact hunfold
        constructor
        · intro _
          exact ⟨m.conversationId, hstep, ⟨conv, hc, hgf⟩,
            m, List.mem_cons_self _ _, rfl⟩
        · intro hnone
          exact absurd ⟨m, List.mem_cons_self _ _, conv, hc, hgf⟩ hnone

/-- C10: calling `getOrCreateDirectConversation` with both arguments the
same user A (in a state where memberships per (user, conversation) pair are
unique and ids are fresh): when A already belongs to some existing non-group
conversation the call returns an existing conversation's id unchanged,
inserting nothing; otherwise it creates one new non-group conversation
together with two Memberships, both for A. -/
theorem getOrCreateDirect_self_call (s : DB) (now : Int) (A : Nat)
    (hpair : ∀ m ∈ s.conversationMembers,
      (membershipsOfUserConversation s A m.conversationId).length ≤ 1)
    (hfresh : ∀ m ∈ s.conversationMembers, m.conversationId ≠ s.nextId) :
    ((∃ m ∈ membershipsOfUser s A, ∃ c,
        getConversation s m.conversationId = some c ∧ c.isGroup = false) →
      ∃ cid, getOrCreateDirectConversation s now A A = Except.ok (cid, s) ∧
        (∃ c, getConversation s cid = some c ∧ c.isGroup = false) ∧
        ∃ m ∈ membershipsOfUser s A, m.conversationId = cid) ∧
    ((¬ ∃ m ∈ membershipsOfUser s A, ∃ c,
        getConversation s m.conversationId = some c ∧ c.isGroup = false) →
      ∃ s' : DB, getOrCreateDirectConversation s now A A =
          Except.ok (s.nextId, s') ∧
        s'.conversations = s.conversations ++
          [{ id := s.nextId, isGroup := false, name := none, createdAt := now }] ∧
        (membershipsOfConversation s' s.nextId).map (fun m => m.userId) =
          [A, A]) := by
  obtain ⟨hFound, hNone⟩ := findDirectLoop_self s A hpair
    (membershipsOfUser s A) (fun _ hm => hm)
  have hstep : getOrCreateDirectConversation s now A A =
      match findDirectLoop s A (membershipsOfUser s A) with
      | .error e => .error e
      | .ok (some cid) => .ok (cid, s)
      | .ok none =>
        .ok (s.nextId,
          { s with
            conversations := s.conversations ++
              [{ id := s.nextId, isGroup := false, name := none, createdAt := now }],
            conversationMembers := s.conversationMembers ++
              [{ id := s.nextId + 1, conversationId := s.nextId,
                 userId := A, lastReadAt := now },
               { id := s.nextId + 2, conversationId := s.nextId,
                 userId := A, lastReadAt := now }],
            nextId := s.nextId + 3 }) := rfl
  constructor
  · intro hex
    obtain ⟨cid, h1, h2, h3⟩ := hFound hex
    rw [h1] at hstep
    exact ⟨cid, hstep, h2, h3⟩
  · intro hnone
    rw [hNone hnone] at hstep
    refine ⟨_, hstep, rfl, ?_⟩
    unfold membershipsOfConversation
    dsimp only
    rw [List.filter_append]
    have hold : s.conversationMembers.filter
        (fun m => m.conversationId == s.nextId) = [] := by
      rw [List.filter_eq_nil_iff]
      intro m hm
      simpa using hfresh m hm
    rw [hold]
    simp

/-- A state holding one existing direct conversation between users 1 and 2. -/
def c10DB : DB :=
  { emptyDB with
    conversations := [{ id := 0, isGroup := false, name := none, createdAt := 3 }],
    conversationMembers := [{ id := 1, conversationId := 0, userId := 1,
                              lastReadAt := 3 },
                            { id := 2, conversationId := 0, userId := 2,
                              lastReadAt := 3 }],
    nextId := 3 }

/-- C10 witness: in `c10DB`, `getOrCreateDirect(1, 1)` returns the existing
conversation and changes nothing; in the empty store, it creates one
conversation with two memberships both for user 1. -/
theorem getOrCreateDirect_self_call_witness :
    ((∀ m ∈ c10DB.conversationMembers,
        (membershipsOfUserConversation c10DB 1 m.conversationId).length ≤ 1) ∧
      (∀ m ∈ c10DB.conversationMembers, m.conversationId ≠ c10DB.nextId) ∧
      (∃ m ∈ membershipsOfUser c10DB 1, ∃ c,
        getConversation c10DB m.conversationId = some c ∧ c.isGroup = false)) ∧
    (∃ cid, getOrCreateDirectConversation c10DB 9 1 1 =
        Except.ok (cid, c10DB) ∧
      (∃ c, getConversation c10DB cid = some c ∧ c.isGroup = false) ∧
      ∃ m ∈ membershipsOfUser c10DB 1, m.conversationId = cid) ∧
    (∃ s' : DB, getOrCreateDirectConversation emptyDB 9 1 1 =
        Except.ok (0, s') ∧
      s'.conversations = [{ id := 0, isGroup := false, name := none,
                            createdAt := 9 }] ∧
      (membershipsOfConversation s' 0).map (fun m => m.userId) = [1, 1]) := by
  refine ⟨⟨by decide, by decide, by decide⟩, ?_, ?_⟩
  · exact (getOrCreateDirect_self_call c10DB 9 1 (by decide) (by decide)).1
      (by decide)
  · have h := (getOrCreateDirect_self_call emptyDB 9 1 (by decide) (by decide)).2
      (by decide)
    simpa using h

/-! ## C1: direct-conversation dedup under sequential calls -/

/-- Run a sequence of sequential `getOrCreateDirectConversation` calls for
the pair (A, B): each list entry is a direction flag (true = called as
(A, B), false = called as (B, A)) together with that call's clock value;
the returned ids are collected in order. -/
def runDirectCalls (A B : Nat) : DB → List (Bool × Int) →
    Except String (List Nat × DB)
  | s, [] => .ok ([], s)
  | s, (dir, now) :: rest =>
    match (if dir then getOrCreateDirectConversation s now A B
           else getOrCreateDirectConversation s now B A) with
    | .error e => .error e
    | .ok (cid, s1) =>
      match runDirectCalls A B s1 rest with
      | .error e => .error e
      | .ok (cids, s2) => .ok (cid :: cids, s2)

/-- Ids already allocated are below the `nextId` counter. -/
def WfIds (s : DB) : Prop :=
  (∀ c ∈ s.conversations, c.id < s.nextId) ∧
  (∀ m ∈ s.conversationMembers, m.conversationId < s.nextId)

/-- No existing non-group conversation has Memberships of both A and B. -/
def noDirectBoth (s : DB) (A B : Nat) : Prop :=
  ∀ c ∈ s.conversations, c.isGroup = false →
    membershipsOfUserConversation s A c.id = [] ∨
    membershipsOfUserConversation s B c.id = []

/-- The canonical state reached after the pair (A, B) got its direct
conversation `cid`: the conversation exists, is not a group, holds exactly
one membership of each of A and B and no others, no other non-group
conversation has both, and `cid` names a unique conversation row. -/
def DirectInv (s : DB) (A B cid : Nat) : Prop :=
  (∃ c, getConversation s cid = some c ∧ c.isGroup = false) ∧
  (∃ x, membershipsOfUserConversation s A cid = [x]) ∧
  (∃ y, membershipsOfUserConversation s B cid = [y]) ∧
  (∀ c ∈ s.conversations, c.isGroup = false → c.id ≠ cid →
    membershipsOfUserConversation s A c.id = [] ∨
    membershipsOfUserConversation s B c.id = []) ∧
  s.conversations.countP (fun c => c.id == cid) = 1 ∧
  List.Perm ((membershipsOfConversation s cid).map (fun m => m.userId)) [A, B]

/-- A membership of user X on conversation `cid` lies in the
`by_user_conversation` filter for (X, cid). -/
theorem mem_pair_filter {s : DB} {X : Nat} {m : ChatMembership}
    (hm : m ∈ membershipsOfUser s X) :
    m ∈ membershipsOfUserConversation s X m.conversationId := by
  obtain ⟨hcm, hx⟩ := List.mem_filter.mp hm
  exact List.mem_filter.mpr ⟨hcm, by simp only [beq_iff_eq] at hx; simp [hx]⟩

/-- The dedup scan returns none when X and Y share no non-group
conversation. -/
theorem findDirectLoop_no_shared (s : DB) (X Y : Nat)
    (hsep : ∀ c ∈ s.conversations, c.isGroup = false →
      membershipsOfUserConversation s X c.id = [] ∨
      membershipsOfUserConversation s Y c.id = []) :
    ∀ ms : List ChatMembership, (∀ m ∈ ms, m ∈ membershipsOfUser s X) →
      findDirectLoop s Y ms = Except.ok none := by
  intro ms
  induction ms with
  | nil =>
    intro _
    rfl
  | cons m rest ih =>
    intro hms
    have hmUser := hms m (List.mem_cons_self _ _)
    have htail := ih (fun m' hm' => hms m' (List.mem_cons_of_mem _ hm'))
    have hunfold : findDirectLoop s Y (m :: rest) =
        match getConversation s m.conversationId with
        | none => findDirectLoop s Y rest
        | some conversation =>
          if conversation.isGroup then findDirectLoop s Y rest
          else
            match uniqueQ (membershipsOfUserConversation s Y m.conversationId) with
            | .error e => .error e
            | .ok none => findDirectLoop s Y rest
            | .ok (some _) => .ok (some m.conversationId) := rfl
    rcases hc : getConversation s m.conversationId with _ | conv
    · rw [hc] at hunfold
      exact hunfold.trans htail
    · rw [hc] at hunfold
      dsimp only at hunfold
      by_cases hg : conv.isGroup = true
      · rw [if_pos hg] at hunfold
        exact hunfold.trans htail
      · have hgf : conv.isGroup = false := by
          cases hcg : conv.isGroup
          · rfl
          · exact absurd hcg hg
        rw [if_neg (by simp [hgf])] at hunfold
        have hcMem : conv ∈ s.conversations := List.mem_of_find?_eq_some hc
        have hcid : conv.id = m.conversationId := getConversation_id s _ conv hc
        have hXne : membershipsOfUserConversation s X conv.id ≠ [] := by
          rw [hcid]
          intro hempty
          have := mem_pair_filter hmUser
          rw [hempty] at this
          simp at this
        have hY : membershipsOfUserConversation s Y conv.id = [] := by
          rcases hsep conv hcMem hgf with h | h
          · exact absurd h hXne
          · exact h
        rw [hcid] at hY
        rw [hY] at hunfold
        exact hunfold.trans htail

/-- The dedup scan finds `cid` when (i) `cid` exists and is non-group with
a unique membership of Y, (ii) every other non-group conversation misses X
or Y, and (iii) some scanned membership of X references `cid`. -/
theorem findDirectLoop_found (s : DB) (X Y cid : Nat)
    (hc0 : ∃ c, getConversation s cid = some c ∧ c.isGroup = false)
    (hY1 : ∃ y, membershipsOfUserConversation s Y cid = [y])
    (hsep : ∀ c ∈ s.conversations, c.isGroup = false → c.id ≠ cid →
      membershipsOfUserConversation s X c.id = [] ∨
      membershipsOfUserConversation s Y c.id = []) :
    ∀ ms : List ChatMembership, (∀ m ∈ ms, m ∈ membershipsOfUser s X) →
      (∃ m ∈ ms, m.conversationId = cid) →
      findDirectLoop s Y ms = Except.ok (some cid) := by
  intro ms
  induction ms with
  | nil =>
    intro _ hex
    simp at hex
  | cons m rest ih =>
    intro hms hex
    have hmUser := hms m (List.mem_cons_self _ _)
    have htail := ih (fun m' hm' => hms m' (List.mem_cons_of_mem _ hm'))
    have hunfold : findDirectLoop s Y (m :: rest) =
        match getConversation s m.conversationId with
        | none => findDirectLoop s Y rest
        | some conversation =>
          if conversation.isGroup then findDirectLoop s Y rest
          else
            match uniqueQ (membershipsOfUserConversation s Y m.conversationId) with
            | .error e => .error e
            | .ok none => findDirectLoop s Y rest
            | .ok (some _) => .ok (some m.conversationId) := rfl
    by_cases hm : m.conversationId = cid
    · obtain ⟨c0, hc0eq, hc0g⟩ := hc0
      obtain ⟨y, hy⟩ := hY1
      rw [hm, hc0eq] at hunfold
      dsimp only at hunfold
      rw [if_neg (by simp [hc0g]), hy] at hunfold
      exact hunfold
    · have hexRest : ∃ m' ∈ rest, m'.conversationId = cid := by
        rcases hex with ⟨m', hm', hcid'⟩
        rcases List.mem_cons.mp hm' with rfl | hm'
        · exact absurd hcid' hm
        · exact ⟨m', hm', hcid'⟩
      rcases hc : getConversation s m.conversationId with _ | conv
      · rw [hc] at hunfold
        exact hunfold.trans (htail hexRest)
      · rw [hc] at hunfold
        dsimp only at hunfold
        by_cases hg : conv.isGroup = true
        · rw [if_pos hg] at hunfold
          exact hunfold.trans (htail hexRest)
        · have hgf : conv.isGroup = false := by
            cases hcg : conv.isGroup
            · rfl
            · exact absurd hcg hg
          rw [if_neg (by simp [hgf])] at hunfold
          have hcMem : conv ∈ s.conversations := List.mem_of_find?_eq_some hc
          have hcid : conv.id = m.conversationId := getConversation_id s _ conv hc
          have hXne : membershipsOfUserConversation s X conv.id ≠ [] := by
            rw [hcid]
            intro hempty
            have := mem_pair_filter hmUser
            rw [hempty] at this
            simp at this
          have hY : membershipsOfUserConversation s Y conv.id = [] := by
            rcases hsep conv hcMem hgf (by rw [hcid]; exact hm) with h | h
            · exact absurd h hXne
            · exact h
          rw [hcid] at hY
          rw [hY] at hunfold
          exact hunfold.trans (htail hexRest)

/-- After the create branch runs for the pair (inserted in either order),
the canonical direct-conversation state holds for the fresh id. -/
theorem direct_inv_after_insert (s : DB) (A B u1 u2 : Nat) (now : Int)
    (hWf : WfIds s) (hAB : A ≠ B) (hnone : noDirectBoth s A B)
    (h12 : (u1 = A ∧ u2 = B) ∨ (u1 = B ∧ u2 = A)) :
    DirectInv
      { s with
        conversations := s.conversations ++
          [{ id := s.nextId, isGroup := false, name := none, createdAt := now }],
        conversationMembers := s.conversationMembers ++
          [{ id := s.nextId + 1, conversationId := s.nextId,
             userId := u1, lastReadAt := now },
           { id := s.nextId + 2, conversationId := s.nextId,
             userId := u2, lastReadAt := now }],
        nextId := s.nextId + 3 } A B s.nextId := by
  have hOldConv : ∀ c ∈ s.conversations, (c.id == s.nextId) = false := by
    intro c hc
    simpa using Nat.ne_of_lt (hWf.1 c hc)
  have hOldMem : ∀ u : Nat, s.conversationMembers.filter
      (fun m => m.userId == u && m.conversationId == s.nextId) = [] := by
    intro u
    rw [List.filter_eq_nil_iff]
    intro m hm
    simp only [Bool.and_eq_true, beq_iff_eq, not_and]
    intro _
    exact Nat.ne_of_lt (hWf.2 m hm)
  have hq : ∀ (s' : DB) (u c : Nat), membershipsOfUserConversation s' u c =
      s'.conversationMembers.filter
        (fun m => m.userId == u && m.conversationId == c) :=
    fun _ _ _ => rfl
  refine ⟨?_, ?_, ?_, ?_, ?_, ?_⟩
  · refine ⟨{ id := s.nextId, isGroup := false, name := none,
              createdAt := now }, ?_, rfl⟩
    show List.find? (fun c => c.id == s.nextId) (s.conversations ++ _) = _
    rw [List.find?_append]
    have h1 : s.conversations.find? (fun c => c.id == s.nextId) = none :=
      List.find?_eq_none.mpr (fun c hc => by simp [hOldConv c hc])
    rw [h1]
    simp
  · rw [hq]
    dsimp only
    rw [List.filter_append, hOldMem A, List.nil_append]
    rcases h12 with ⟨h1, h2⟩ | ⟨h1, h2⟩
    · rw [h1, h2]
      have hf : List.filter (fun m => m.userId == A && m.conversationId == s.nextId)
          ([{ id := s.nextId + 1, conversationId := s.nextId,
              userId := A, lastReadAt := now },
            { id := s.nextId + 2, conversationId := s.nextId,
              userId := B, lastReadAt := now }] : List ChatMembership) =
          [{ id := s.nextId + 1, conversationId := s.nextId,
             userId := A, lastReadAt := now }] := by
        simp [hAB, Ne.symm hAB]
      exact ⟨_, hf⟩
    · rw [h1, h2]
      have hf : List.filter (fun m => m.userId == A && m.conversationId == s.nextId)
          ([{ id := s.nextId + 1, conversationId := s.nextId,
              userId := B, lastReadAt := now },
            { id := s.nextId + 2, conversationId := s.nextId,
              userId := A, lastReadAt := now }] : List ChatMembership) =
          [{ id := s.nextId + 2, conversationId := s.nextId,
             userId := A, lastReadAt := now }] := by
        simp [hAB, Ne.symm hAB]
      exact ⟨_, hf⟩
  · rw [hq]
    dsimp only
    rw [List.filter_append, hOldMem B, List.nil_append]
    rcases h12 with ⟨h1, h2⟩ | ⟨h1, h2⟩
    · rw [h1, h2]
      have hf : List.filter (fun m => m.userId == B && m.conversationId == s.nextId)
          ([{ id := s.nextId + 1, conversationId := s.nextId,
              userId := A, lastReadAt := now },
            { id := s.nextId + 2, conversationId := s.nextId,
              userId := B, lastReadAt := now }] : List ChatMembership) =
          [{ id := s.nextId + 2, conversationId := s.nextId,
             userId := B, lastReadAt := now }] := by
        simp [hAB, Ne.symm hAB]
      exact ⟨_, hf⟩
    · rw [h1, h2]
      have hf : List.filter (fun m => m.userId == B && m.conversationId == s.nextId)
          ([{ id := s.nextId + 1, conversationId := s.nextId,
              userId := B, lastReadAt := now },
            { id := s.nextId + 2, conversationId := s.nextId,
              userId := A, lastReadAt := now }] : List ChatMembership) =
          [{ id := s.nextId + 1, conversationId := s.nextId,
             userId := B, lastReadAt := now }] := by
        simp [hAB, Ne.symm hAB]
      exact ⟨_, hf⟩
  · intro c hc hg hne
    have hc' : c ∈ s.conversations := by
      rcases List.mem_append.mp hc with h | h
      · exact h
      · have hceq : c = { id := s.nextId, isGroup := false, name := none, createdAt := now } := by
          simpa using h
        rw [hceq] at hne
        exact absurd rfl hne
    have hfilters : ∀ u : Nat,
        membershipsOfUserConversation
          { s with
            conversations := s.conversations ++
              [{ id := s.nextId, isGroup := false, name := none, createdAt := now }],
            conversationMembers := s.conversationMembers ++
              [{ id := s.nextId + 1, conversationId := s.nextId,
                 userId := u1, lastReadAt := now },
               { id := s.nextId + 2, conversationId := s.nextId,
                 userId := u2, lastReadAt := now }],
            nextId := s.nextId + 3 } u c.id =
        membershipsOfUserConversation s u c.id := by
      intro u
      rw [hq, hq]
      dsimp only
      rw [List.filter_append]
      have hnew : List.filter (fun m => m.userId == u && m.conversationId == c.id)
          ([{ id := s.nextId + 1, conversationId := s.nextId,
              userId := u1, lastReadAt := now },
            { id := s.nextId + 2, conversationId := s.nextId,
              userId := u2, lastReadAt := now }] : List ChatMembership) = [] := by
        simp [Ne.symm hne]
      rw [hnew, List.append_nil]
    rw [hfilters A, hfilters B]
    exact hnone c hc' hg
  · dsimp only
    rw [List.countP_append]
    have h0 : s.conversations.countP (fun c => c.id == s.nextId) = 0 :=
      List.countP_eq_zero.mpr (fun c hc => by simp [hOldConv c hc])
    rw [h0]
    simp [List.countP_cons]
  · have hq2 : ∀ (s' : DB) (c : Nat), membershipsOfConversation s' c =
        s'.conversationMembers.filter (fun m => m.conversationId == c) :=
      fun _ _ => rfl
    rw [hq2]
    dsimp only
    rw [List.filter_append]
    have hOld2 : s.conversationMembers.filter
        (fun m => m.conversationId == s.nextId) = [] := by
      rw [List.filter_eq_nil_iff]
      intro m hm
      simpa using Nat.ne_of_lt (hWf.2 m hm)
    rw [hOld2, List.nil_append]
    have hKeep : List.filter (fun m => m.conversationId == s.nextId)
        ([{ id := s.nextId + 1, conversationId := s.nextId,
            userId := u1, lastReadAt := now },
          { id := s.nextId + 2, conversationId := s.nextId,
            userId := u2, lastReadAt := now }] : List ChatMembership) =
        [{ id := s.nextId + 1, conversationId := s.nextId,
           userId := u1, lastReadAt := now },
         { id := s.nextId + 2, conversationId := s.nextId,
           userId := u2, lastReadAt := now }] := by
      simp
    rw [hKeep]
    rcases h12 with ⟨h1, h2⟩ | ⟨h1, h2⟩
    · rw [h1, h2]
      exact List.Perm.refl _
    · rw [h1, h2]
      exact List.Perm.swap A B []

/-- Once the canonical direct-conversation state holds, a call in either
direction returns the canonical id and leaves the state untouched. -/
theorem getOrCreateDirect_under_inv (s : DB) (A B cid : Nat) (now : Int)
    (hInv : DirectInv s A B cid) :
    getOrCreateDirectConversation s now A B = Except.ok (cid, s) ∧
    getOrCreateDirectConversation s now B A = Except.ok (cid, s) := by
  obtain ⟨hc0, hA1, hB1, hsep, hcount, hperm⟩ := hInv
  have hmemX : ∀ X : Nat, (∃ x, membershipsOfUserConversation s X cid = [x]) →
      ∃ m ∈ membershipsOfUser s X, m.conversationId = cid := by
    rintro X ⟨x, hx⟩
    have hxmem : x ∈ membershipsOfUserConversation s X cid := by
      rw [hx]
      exact List.mem_cons_self _ _
    obtain ⟨hcm, hpred⟩ := List.mem_filter.mp hxmem
    simp only [Bool.and_eq_true, beq_iff_eq] at hpred
    exact ⟨x, List.mem_filter.mpr ⟨hcm, by simp [hpred.1]⟩, hpred.2⟩
  constructor
  · have hscan := findDirectLoop_found s A B cid hc0 hB1 hsep
      (membershipsOfUser s A) (fun _ h => h) (hmemX A hA1)
    unfold getOrCreateDirectConversation
    rw [hscan]
  · have hsep' : ∀ c ∈ s.conversations, c.isGroup = false → c.id ≠ cid →
        membershipsOfUserConversation s B c.id = [] ∨
        membershipsOfUserConversation s A c.id = [] :=
      fun c hc hg hne => (hsep c hc hg hne).symm
    have hscan := findDirectLoop_found s B A cid hc0 hA1 hsep'
      (membershipsOfUser s B) (fun _ h => h) (hmemX B hB1)
    unfold getOrCreateDirectConversation
    rw [hscan]

/-- Under the canonical state, any further sequence of sequential pair
calls returns the canonical id every time and never changes the state. -/
theorem runDirectCalls_under_inv (A B cid : Nat) :
    ∀ (calls : List (Bool × Int)) (s : DB), DirectInv s A B cid →
      runDirectCalls A B s calls =
        Except.ok (List.replicate calls.length cid, s) := by
  intro calls
  induction calls with
  | nil =>
    intro s _
    rfl
  | cons c rest ih =>
    obtain ⟨dir, now⟩ := c
    intro s hInv
    have hcalls := getOrCreateDirect_under_inv s A B cid now hInv
    have hcall : (if dir then getOrCreateDirectConversation s now A B
        else getOrCreateDirectConversation s now B A) = Except.ok (cid, s) := by
      cases dir
      · exact hcalls.2
      · exact hcalls.1
    have hunfold : runDirectCalls A B s ((dir, now) :: rest) =
        match (if dir then getOrCreateDirectConversation s now A B
               else getOrCreateDirectConversation s now B A) with
        | .error e => .error e
        | .ok (cid', s1) =>
          match runDirectCalls A B s1 rest with
          | .error e => .error e
          | .ok (cids, s2) => .ok (cid' :: cids, s2) := rfl
    rw [hcall] at hunfold
    rw [hunfold]
    show (match runDirectCalls A B s rest with
      | .error e => .error e
      | .ok (cids, s2) => .ok (cid :: cids, s2)) =
      Except.ok (List.replicate ((dir, now) :: rest).length cid, s)
    rw [ih s hInv]
    rfl

/-- The canonical state means: the conversation `cid` exists, is non-group,
its member list is exactly one membership of each of A and B, and it is the
only non-group conversation where both A and B hold memberships. -/
theorem direct_inv_conclusions (s : DB) (A B cid : Nat)
    (hInv : DirectInv s A B cid) :
    (∃ c, getConversation s cid = some c ∧ c.isGroup = false) ∧
    List.Perm ((membershipsOfConversation s cid).map (fun m => m.userId)) [A, B] ∧
    s.conversations.countP (fun c =>
      !c.isGroup && !(membershipsOfUserConversation s A c.id).isEmpty &&
      !(membershipsOfUserConversation s B c.id).isEmpty) = 1 := by
  obtain ⟨hc0, hA1, hB1, hsep, hcount, hperm⟩ := hInv
  refine ⟨hc0, hperm, ?_⟩
  obtain ⟨c0, hc0eq, hc0g⟩ := hc0
  have hc0mem : c0 ∈ s.conversations := List.mem_of_find?_eq_some hc0eq
  have hc0id : c0.id = cid := getConversation_id s cid c0 hc0eq
  have hle : s.conversations.countP (fun c =>
      !c.isGroup && !(membershipsOfUserConversation s A c.id).isEmpty &&
      !(membershipsOfUserConversation s B c.id).isEmpty) ≤
      s.conversations.countP (fun c => c.id == cid) := by
    refine List.countP_mono_left ?_
    intro c hc hpc
    simp only [Bool.and_eq_true, Bool.not_eq_true'] at hpc
    obtain ⟨⟨hg, hea⟩, heb⟩ := hpc
    by_contra hne
    have hne' : c.id ≠ cid := by simpa using hne
    rcases hsep c hc hg hne' with h | h
    · rw [h] at hea
      simp at hea
    · rw [h] at heb
      simp at heb
  have hge : 0 < s.conversations.countP (fun c =>
      !c.isGroup && !(membershipsOfUserConversation s A c.id).isEmpty &&
      !(membershipsOfUserConversation s B c.id).isEmpty) := by
    refine List.countP_pos_iff.mpr ⟨c0, hc0mem, ?_⟩
    obtain ⟨xa, hxa⟩ := hA1
    obtain ⟨xb, hxb⟩ := hB1
    rw [hc0id]
    simp [hc0g, hxa, hxb]
  omega

/-- The first call of a sequence, from a pair-free well-formed state,
creates the conversation and establishes the canonical state. -/
theorem getOrCreateDirect_creates (s : DB) (A B : Nat) (now : Int)
    (hWf : WfIds s) (hAB : A ≠ B) (hnone : noDirectBoth s A B) (dir : Bool) :
    ∃ s' : DB,
      (if dir then getOrCreateDirectConversation s now A B
       else getOrCreateDirectConversation s now B A) =
        Except.ok (s.nextId, s') ∧
      DirectInv s' A B s.nextId := by
  cases dir
  · have hsep' : ∀ c ∈ s.conversations, c.isGroup = false →
        membershipsOfUserConversation s B c.id = [] ∨
        membershipsOfUserConversation s A c.id = [] :=
      fun c hc hg => (hnone c hc hg).symm
    have hscan := findDirectLoop_no_shared s B A hsep'
      (membershipsOfUser s B) (fun _ h => h)
    refine ⟨_, ?_,
      direct_inv_after_insert s A B B A now hWf hAB hnone (Or.inr ⟨rfl, rfl⟩)⟩
    show getOrCreateDirectConversation s now B A = _
    unfold getOrCreateDirectConversation
    rw [hscan]
  · have hscan := findDirectLoop_no_shared s A B (hnone)
      (membershipsOfUser s A) (fun _ h => h)
    refine ⟨_, ?_,
      direct_inv_after_insert s A B A B now hWf hAB hnone (Or.inl ⟨rfl, rfl⟩)⟩
    show getOrCreateDirectConversation s now A B = _
    unfold getOrCreateDirectConversation
    rw [hscan]

/-- C1: starting from a well-formed state where no non-group conversation
holds memberships of both A and B, any non-empty sequence of sequential
`getOrCreateDirect` calls with arguments (A, B) or (B, A), in any order,
succeeds, returns one and the same conversation id on every call, and
leaves exactly one non-group conversation in which both A and B are
members — it exists, is non-group, and carries exactly two Memberships, one
for A and one for B. -/
theorem getOrCreateDirect_dedup (s : DB) (A B : Nat)
    (hWf : WfIds s) (hAB : A ≠ B) (hnone : noDirectBoth s A B)
    (calls : List (Bool × Int)) (hne : calls ≠ []) :
    ∃ (cid : Nat) (s' : DB),
      runDirectCalls A B s calls =
        Except.ok (List.replicate calls.length cid, s') ∧
      (∃ c, getConversation s' cid = some c ∧ c.isGroup = false) ∧
      List.Perm ((membershipsOfConversation s' cid).map (fun m => m.userId))
        [A, B] ∧
      s'.conversations.countP (fun c =>
        !c.isGroup && !(membershipsOfUserConversation s' A c.id).isEmpty &&
        !(membershipsOfUserConversation s' B c.id).isEmpty) = 1 := by
  match calls, hne with
  | (dir, now) :: rest, _ =>
    obtain ⟨s₁, hcall, hInv⟩ :=
      getOrCreateDirect_creates s A B now hWf hAB hnone dir
    have hrest := runDirectCalls_under_inv A B s.nextId rest s₁ hInv
    obtain ⟨hc, hperm, hcount⟩ := direct_inv_conclusions s₁ A B s.nextId hInv
    refine ⟨s.nextId, s₁, ?_, hc, hperm, hcount⟩
    have hunfold : runDirectCalls A B s ((dir, now) :: rest) =
        match (if dir then getOrCreateDirectConversation s now A B
               else getOrCreateDirectConversation s now B A) with
        | .error e => .error e
        | .ok (cid', s1) =>
          match runDirectCalls A B s1 rest with
          | .error e => .error e
          | .ok (cids, s2) => .ok (cid' :: cids, s2) := rfl
    rw [hcall] at hunfold
    rw [hunfold]
    show (match runDirectCalls A B s₁ rest with
      | .error e => .error e
      | .ok (cids, s2) => .ok (s.nextId :: cids, s2)) =
      Except.ok (List.replicate ((dir, now) :: rest).length s.nextId, s₁)
    rw [hrest]
    rfl

/-- C1 witness: three interleaved calls (A, B), (B, A), (A, B) for users 1
and 2 on the empty store. -/
theorem getOrCreateDirect_dedup_witness :
    (WfIds emptyDB ∧ (1 : Nat) ≠ 2 ∧ noDirectBoth emptyDB 1 2 ∧
      ([(true, 5), (false, 6), (true, 7)] : List (Bool × Int)) ≠ []) ∧
    ∃ (cid : Nat) (s' : DB),
      runDirectCalls 1 2 emptyDB [(true, 5), (false, 6), (true, 7)] =
        Except.ok (List.replicate 3 cid, s') ∧
      (∃ c, getConversation s' cid = some c ∧ c.isGroup = false) ∧
      List.Perm ((membershipsOfConversation s' cid).map (fun m => m.userId))
        [1, 2] ∧
      s'.conversations.countP (fun c =>
        !c.isGroup && !(membershipsOfUserConversation s' 1 c.id).isEmpty &&
        !(membershipsOfUserConversation s' 2 c.id).isEmpty) = 1 :=
  ⟨⟨⟨fun c hc => by simp [emptyDB] at hc, fun m hm => by simp [emptyDB] at hm⟩,
      by decide, fun c hc => by simp [emptyDB] at hc, by simp⟩,
    getOrCreateDirect_dedup emptyDB 1 2
      ⟨fun c hc => by simp [emptyDB] at hc, fun m hm => by simp [emptyDB] at hm⟩
      (by decide) (fun c hc => by simp [emptyDB] at hc)
      [(true, 5), (false, 6), (true, 7)] (by simp)⟩
